import Mathlib

/-!
Verification of the image-to-CSV pipeline of the shopify-product-generator
repository (`src/server.js` and `src/api/generate.js`).

Strings are modelled as `List Char` (the `String` wrappers appear only at the
outer boundaries).  Pure JS helpers (`slugify`, `escapeCsvField`,
`toShopifyRow`, `SHOPIFY_CSV_HEADER`, the response assembly and the per-image
processing loops) are translated directly; the two external HTTP calls
(vision classification, blob upload) are abstracted as function parameters
returning `Except`.
-/

namespace ShopifyGen

/-- The double-quote character (ASCII 34). -/
def dquote : Char := Char.ofNat 34

/-- JS regex `\s` (whitespace class), restricted to the code points JS names:
space, tab, LF, VT, FF, CR, NBSP, and the Unicode space separators. -/
def jsIsSpace (c : Char) : Bool :=
  let n := c.toNat
  n = 32 || n = 9 || n = 10 || n = 11 || n = 12 || n = 13 ||
  n = 0xA0 || n = 0x1680 || (0x2000 ≤ n && n ≤ 0x200A) ||
  n = 0x2028 || n = 0x2029 || n = 0x202F || n = 0x205F || n = 0x3000 || n = 0xFEFF

/-- JS regex `\w` (word character): `[A-Za-z0-9_]`. -/
def jsIsWord (c : Char) : Bool :=
  let n := c.toNat
  (97 ≤ n && n ≤ 122) || (65 ≤ n && n ≤ 90) || (48 ≤ n && n ≤ 57) || n = 95

/-- ASCII uppercase letter. -/
def isUpperAscii (c : Char) : Bool :=
  65 ≤ c.toNat && c.toNat ≤ 90

/-- `String.prototype.toLowerCase`, ASCII fragment (this is also exactly what
`Char.toLower` computes). -/
def jsToLower (c : Char) : Char := Char.toLower c

/-- `String.prototype.trim`: drop leading whitespace. -/
def trimLeft (l : List Char) : List Char := l.dropWhile jsIsSpace

/-- `String.prototype.trim`: drop trailing whitespace. -/
def trimRight (l : List Char) : List Char := ((l.reverse).dropWhile jsIsSpace).reverse

/-- `String.prototype.trim`. -/
def jsTrim (l : List Char) : List Char := trimRight (trimLeft l)

/-- `replace(/\s+/g, '-')`: every maximal run of whitespace becomes a single
hyphen.  The boolean records whether the previous character was whitespace
(i.e. whether we are inside a run that has already emitted its hyphen). -/
def collapseWsAux : Bool → List Char → List Char
  | _, [] => []
  | prevSpace, c :: cs =>
    if jsIsSpace c then
      if prevSpace then collapseWsAux true cs
      else '-' :: collapseWsAux true cs
    else c :: collapseWsAux false cs

/-- `replace(/\s+/g, '-')`. -/
def collapseWs (l : List Char) : List Char := collapseWsAux false l

/-- The character class `[\w\-]` kept by the strip below. -/
def keepChar (c : Char) : Bool := jsIsWord c || c = '-'

/-- `replace(/[^\w\-]+/g, '')`: deleting every maximal run of characters that
are neither word characters nor hyphens is just filtering them out. -/
def stripNonWord (l : List Char) : List Char :=
  l.filter keepChar

/-- `replace(/\-\-+/g, '-')`: every maximal run of hyphens becomes a single
hyphen (runs of length one are left as they are, so the net effect on every
maximal run is the same).  The boolean records whether the previous character
was a hyphen. -/
def collapseHyAux : Bool → List Char → List Char
  | _, [] => []
  | prevHy, c :: cs =>
    if c = '-' then
      if prevHy then collapseHyAux true cs
      else '-' :: collapseHyAux true cs
    else c :: collapseHyAux false cs

/-- `replace(/\-\-+/g, '-')`. -/
def collapseHy (l : List Char) : List Char := collapseHyAux false l

/-- `replace(/^-+/, '')`. -/
def dropLeadHy (l : List Char) : List Char := l.dropWhile fun c => c = '-'

/-- `replace(/\-+$/, '')` (the trailing-hyphen strip; the backslash is not in
the source but avoids a comment-open token here). -/
def dropTrailHy (l : List Char) : List Char :=
  ((l.reverse).dropWhile fun c => c = '-').reverse

/-- `slugify` from `src/server.js`:
lowercase, trim, whitespace runs to hyphens, drop non-word non-hyphen
characters, collapse hyphen runs, strip leading and trailing hyphens. -/
def slugifyL (l : List Char) : List Char :=
  dropTrailHy (dropLeadHy (collapseHy (stripNonWord (collapseWs (jsTrim (l.map jsToLower))))))

/-- `slugify` on `String`. -/
def slugify (s : String) : String := String.mk (slugifyL s.data)

/-! ### CSV encoding (`escapeCsvField`, `toShopifyRow`, `SHOPIFY_CSV_HEADER`) -/

/-- `replace(/"/g, '""')`: double every double-quote. -/
def doubleQuotes : List Char → List Char
  | [] => []
  | c :: cs =>
    if c = dquote then dquote :: dquote :: doubleQuotes cs
    else c :: doubleQuotes cs

/-- `/[,"\n\r]/.test s`. -/
def needsQuoting (l : List Char) : Bool :=
  l.any fun c => c = ',' || c = dquote || c = '\n' || c = '\r'

/-- `escapeCsvField` from `src/server.js` (on a string value, which is never
`null` here): double the quotes, then wrap in quotes when the result contains
a comma, double-quote, LF or CR. -/
def escapeCsvFieldL (l : List Char) : List Char :=
  let s := doubleQuotes l
  if needsQuoting s then dquote :: (s ++ [dquote]) else s

/-- `escapeCsvField` on `String`. -/
def escapeCsvField (s : String) : String := String.mk (escapeCsvFieldL s.data)

/-- The `ProductRecord` built by `getProductFromImage` / consumed by
`toShopifyRow`.  All fields are strings of the JS object. -/
structure Product where
  handle : String
  title : String
  bodyHtml : String
  vendor : String
  type : String
  tags : String
  price : String
  sku : String
  barcode : String
  imageSrc : String
  imageAlt : String
deriving DecidableEq

/-- JS `||` on two strings: the left operand unless it is falsy (empty). -/
def jsOr (s d : String) : String := if s = "" then d else s

/-- JS `||` where the left operand may be a missing object field
(`undefined`), which is falsy like the empty string. -/
def jsOrOpt (o : Option String) (d : String) : String :=
  match o with
  | none => d
  | some s => if s = "" then d else s

/-- The 26 raw (pre-escaping) column values of one Shopify CSV row, from
`toShopifyRow` in `src/server.js`. -/
def shopifyRowValues (product : Product) (index : Nat) : List (List Char) :=
  let handle := jsOr product.handle ("product-" ++ Nat.repr (index + 1))
  [ handle.data,
    product.title.data,
    product.bodyHtml.data,
    (jsOr product.vendor "").data,
    (jsOr product.type "").data,
    (jsOr product.tags "").data,
    "true".data,            -- Published
    "".data,                -- Option1 Name
    "Default Title".data,   -- Option1 Value
    "".data,                -- Option2 Name
    "".data,
    "".data,                -- Option3 Name
    "".data,
    (jsOr product.sku "").data,
    "".data,
    "".data,
    "0".data,
    "deny".data,
    "manual".data,
    (jsOr product.price "0.00").data,
    "".data,
    "true".data,
    "true".data,
    (jsOr product.barcode "").data,
    (jsOr product.imageSrc "").data,
    (jsOr product.imageAlt (jsOr product.title "")).data ]

/-- `Array.prototype.join(sep)`. -/
def joinSep (sep : List Char) : List (List Char) → List Char
  | [] => []
  | [x] => x
  | x :: y :: t => x ++ sep ++ joinSep sep (y :: t)

/-- `toShopifyRow`: escape each column value and join with commas. -/
def toShopifyRowL (product : Product) (index : Nat) : List Char :=
  joinSep [','] ((shopifyRowValues product index).map escapeCsvFieldL)

/-- `SHOPIFY_CSV_HEADER`: the 26 fixed column names. -/
def shopifyHeaderNames : List (List Char) :=
  [ "Handle".data,
    "Title".data,
    "Body (HTML)".data,
    "Vendor".data,
    "Type".data,
    "Tags".data,
    "Published".data,
    "Option1 Name".data,
    "Option1 Value".data,
    "Option2 Name".data,
    "Option2 Value".data,
    "Option3 Name".data,
    "Option3 Value".data,
    "Variant SKU".data,
    "Variant Grams".data,
    "Variant Inventory Tracker".data,
    "Variant Inventory Qty".data,
    "Variant Inventory Policy".data,
    "Variant Fulfillment Service".data,
    "Variant Price".data,
    "Variant Compare-at Price".data,
    "Variant Requires Shipping".data,
    "Variant Taxable".data,
    "Variant Barcode".data,
    "Image Src".data,
    "Image Alt Text".data ]

/-- `SHOPIFY_CSV_HEADER = [...].join(',')`. -/
def SHOPIFY_CSV_HEADER_L : List Char :=
  joinSep [','] shopifyHeaderNames

/-- `products.map((p, i) => toShopifyRow(p, i))`, with `i` starting at `n`. -/
def rowsFrom : Nat → List Product → List (List Char)
  | _, [] => []
  | i, p :: ps => toShopifyRowL p i :: rowsFrom (i + 1) ps

/-- The record list of the CSV document: header first, then one row per
product (`[SHOPIFY_CSV_HEADER, ...products.map((p, i) => toShopifyRow(p, i))]`). -/
def csvRecords (products : List Product) : List (List Char) :=
  SHOPIFY_CSV_HEADER_L :: rowsFrom 0 products

/-- The UTF-8 byte-order mark U+FEFF. -/
def bomChar : Char := Char.ofNat 0xFEFF

/-- The CSV document: the BOM followed by `csvRows.join('\r\n')`. -/
def generateCsvL (products : List Product) : List Char :=
  bomChar :: joinSep ['\r', '\n'] (csvRecords products)

/-- The CSV document as a `String`. -/
def generateCsv (products : List Product) : String :=
  String.mk (generateCsvL products)

/-! ### Classification client record construction (`getProductFromImage`) -/

/-- The JSON object parsed from the model reply: each expected key may be
missing (`undefined`).  `bodyHtml` is the camel-cased alternative key the
code also accepts. -/
structure ParsedReply where
  title : Option String
  body_html : Option String
  bodyHtml : Option String
  vendor : Option String
  type : Option String
  tags : Option String
  price : Option String
deriving DecidableEq

/-- The tail of `getProductFromImage` in `src/server.js`: build the
`ProductRecord` from the parsed reply and the original filename. -/
def productFromParsed (parsed : ParsedReply) (filename : String) : Product :=
  let title := jsOrOpt parsed.title "Untitled Product"
  let handle := jsOr (slugify title) ("product-" ++ filename)
  { handle := handle,
    title := title,
    bodyHtml := jsOrOpt parsed.body_html (jsOrOpt parsed.bodyHtml ""),
    vendor := jsOrOpt parsed.vendor "",
    type := jsOrOpt parsed.type "",
    tags := jsOrOpt parsed.tags "",
    price := jsOrOpt parsed.price "0.00",
    sku := "",
    barcode := "",
    imageSrc := "",
    imageAlt := title }

/-! ### Batch orchestration (`app.post('/api/generate')` and
`src/api/generate.js`) -/

/-- One uploaded file as the handlers see it. -/
structure UploadedFile where
  content : List Nat
  mimetype : String
  originalname : String
deriving DecidableEq

/-- A `ProcessingError` entry (`{ file, message }`). -/
structure ProcessingError where
  file : String
  message : String
deriving DecidableEq

/-- The outcome of the two external calls for one image, abstracted: the
classification call either yields a product or throws, the upload call
either yields a public URL (possibly `''` when storage is unconfigured)
or throws. -/
def Classify := UploadedFile → Except String Product
def Upload := UploadedFile → Nat → Except String String

/-- `processOne` from `src/api/generate.js` (also the loop body of
`app.post('/api/generate')` in `src/server.js`): classify, then try the
upload; a classification failure yields one error and no product, an upload
failure yields one error and the product unchanged, a successful upload sets
`imageSrc` when the returned URL is non-empty. -/
def processOne (classify : Classify) (upload : Upload)
    (file : UploadedFile) (index : Nat) : Option Product × List ProcessingError :=
  match classify file with
  | .error err => (none, [{ file := file.originalname, message := err }])
  | .ok product =>
    match upload file index with
    | .ok imageUrl =>
      (some (if imageUrl ≠ "" then { product with imageSrc := imageUrl } else product), [])
    | .error uploadErr =>
      (some product,
       [{ file := file.originalname, message := "Image upload failed: " ++ uploadErr }])

/-- The sequential `for` loop of `app.post('/api/generate')` in
`src/server.js`, from index `i`.  Besides the accumulated `products` and
`errors` it returns the list of files on which a classification call was
made (the loop makes one for every file it reaches). -/
def processFilesAux (classify : Classify) (upload : Upload) :
    Nat → List UploadedFile → (List Product × List ProcessingError) × List UploadedFile
  | _, [] => (([], []), [])
  | i, file :: rest =>
    let r := processFilesAux classify upload (i + 1) rest
    let one := processOne classify upload file i
    ((one.1.toList ++ r.1.1, one.2 ++ r.1.2), file :: r.2)

/-- The whole loop, from index 0. -/
def processFiles (classify : Classify) (upload : Upload) (files : List UploadedFile) :
    (List Product × List ProcessingError) × List UploadedFile :=
  processFilesAux classify upload 0 files

/-- The HTTP response of the generate endpoint. -/
structure HttpResponse where
  status : Nat
  csvBody : Option String
  error : Option String
  details : Option (List ProcessingError)
deriving DecidableEq

/-- Lines 300–312 of `src/server.js` (identically lines 107–120 of
`src/api/generate.js`): an empty product list is a 400 carrying the full
error list; otherwise a 200 with the CSV built from the product list. -/
def respond (products : List Product) (errors : List ProcessingError) : HttpResponse :=
  if products.length = 0 then
    { status := 400, csvBody := none,
      error := some "No products could be generated.", details := some errors }
  else
    { status := 200, csvBody := some (generateCsv products),
      error := none, details := none }

/-- The MIME allow-list regex `/^image\/(jpeg|jpg|png|gif|webp)$/i`. -/
def allowedMime (s : String) : Bool :=
  let l := String.mk (s.data.map jsToLower)
  l = "image/jpeg" || l = "image/jpg" || l = "image/png" ||
  l = "image/gif" || l = "image/webp"

/-- How the generate request ends: either the multipart parse is aborted by
the `fileFilter`, or the route handler produces a response. -/
inductive GenerateOutcome where
  | rejected (message : String)
  | response (resp : HttpResponse)
deriving DecidableEq

/-- A run of the endpoint: its outcome plus the files on which a
classification call was made. -/
structure GenerateRun where
  outcome : GenerateOutcome
  classified : List UploadedFile
deriving DecidableEq

/-- `app.post('/api/generate', upload.array('images', 50), ...)` from
`src/server.js`.  Modelled from the spec: the multipart parser (multer)
applies the `fileFilter` of lines 33–37 to every incoming file before the
route handler runs, and a filter error is a request-level rejection
("violations are rejected before processing begins").  The handler itself
(empty check, per-image loop, response assembly) is translated from the
source. -/
def handleGenerate (classify : Classify) (upload : Upload)
    (files : List UploadedFile) : GenerateRun :=
  if files.all fun f => allowedMime f.mimetype then
    if files.length = 0 then
      { outcome := .response
          { status := 400, csvBody := none,
            error := some "No images uploaded. Please upload at least one image.",
            details := none },
        classified := [] }
    else
      let r := processFiles classify upload files
      { outcome := .response (respond r.1.1 r.1.2), classified := r.2 }
  else
    { outcome := .rejected "Only images (JPEG, PNG, GIF, WebP) are allowed.",
      classified := [] }

/-- `module.exports` of `src/api/generate.js` (the serverless variant).
Modelled from the spec's collaborator description of the multipart parser
(formidable) named there: the `filter` of lines 41–47 is applied during
parsing, and a part that fails it is skipped — `files.images` contains only
the allow-listed files and the request proceeds with them.  The handler
itself (empty check, per-image loop, response assembly) is translated from
the source. -/
def handleGenerateServerless (classify : Classify) (upload : Upload)
    (files : List UploadedFile) : GenerateRun :=
  let fileList := files.filter fun f => allowedMime f.mimetype
  if fileList.length = 0 then
    { outcome := .response
        { status := 400, csvBody := none,
          error := some "No images uploaded. Please upload at least one image.",
          details := none },
      classified := [] }
  else
    let r := processFiles classify upload fileList
    { outcome := .response (respond r.1.1 r.1.2), classified := r.2 }

/-- The HTTP status a run responded with, if it was not rejected at the
parse boundary. -/
def outcomeStatus (run : GenerateRun) : Option Nat :=
  match run.outcome with
  | .rejected _ => none
  | .response resp => some resp.status

/-! ### The chunked variant of `src/api/generate.js` -/

/-- `CONCURRENCY = 4`. -/
def CONCURRENCY : Nat := 4

/-- The `items` of `src/api/generate.js` carry their original index. -/
structure Item where
  file : UploadedFile
  index : Nat
deriving DecidableEq

/-- `items.slice(start, start + CONCURRENCY)` chunking: split a list into
consecutive chunks of `n` (the last one possibly shorter). -/
def chunksOf (n : Nat) : List Item → List (List Item)
  | [] => []
  | a :: as => (a :: as.take (n - 1)) :: chunksOf n (as.drop (n - 1))
termination_by l => l.length
decreasing_by
  simp only [List.length_drop, List.length_cons]
  omega

/-- The chunked loop of `src/api/generate.js` lines 99–105: per chunk,
`Promise.all(chunk.map(processOne))` yields the results in chunk order and
the non-null products are pushed in that order; chunks run one after
another.  Only the product list is order-deterministic (errors are pushed
concurrently), so this models the product list. -/
def processChunked (classify : Classify) (upload : Upload) (items : List Item) :
    List Product :=
  (chunksOf CONCURRENCY items).flatMap fun chunk =>
    (chunk.map fun it => (processOne classify upload it.file it.index).1).filterMap id

/-! ### A standard CSV reader (the spec side of §8's round-trip and
field-count properties).  `splitRecordAux` splits one CSV record into its
unescaped fields: a comma outside quotes separates fields, a double-quote
toggles quoted mode, and a doubled double-quote inside quotes is a literal
double-quote. -/

/-- State: `inQ` = inside a quoted section, `acc` = the current field's
characters so far, reversed. -/
def splitRecordAux (inQ : Bool) (acc : List Char) : List Char → List (List Char)
  | [] => [acc.reverse]
  | c :: rest =>
    if inQ then
      if c = dquote then
        match rest with
        | d :: rest2 =>
          if d = dquote then splitRecordAux true (d :: acc) rest2
          else splitRecordAux false acc (d :: rest2)
        | [] => splitRecordAux false acc []
      else splitRecordAux true (c :: acc) rest
    else
      if c = ',' then acc.reverse :: splitRecordAux false [] rest
      else if c = dquote then splitRecordAux true acc rest
      else splitRecordAux false (c :: acc) rest

/-- Split one CSV record into its unescaped fields. -/
def splitRecord (l : List Char) : List (List Char) := splitRecordAux false [] l

/-- Undouble the quotes of a quoted field's body. -/
def halveQuotes : List Char → List Char
  | [] => []
  | c :: rest =>
    if c = dquote then
      match rest with
      | d :: rest2 =>
        if d = dquote then dquote :: halveQuotes rest2
        else dquote :: halveQuotes (d :: rest2)
      | [] => [dquote]
    else c :: halveQuotes rest

/-- A standard CSV field unescaper: a field wrapped in double quotes has the
wrapping quotes removed and its doubled quotes undoubled; any other field is
taken verbatim. -/
def csvUnescape (l : List Char) : List Char :=
  match l with
  | [] => []
  | c :: rest =>
    if c = dquote ∧ rest ≠ [] ∧ rest.getLast? = some dquote then
      halveQuotes rest.dropLast
    else l

/-! ## Character-level lemmas -/

theorem char_toNat_ofNat_valid {n : Nat} (h : n.isValidChar) : (Char.ofNat n).toNat = n := by
  simp only [Char.ofNat, dif_pos h, Char.ofNatAux, Char.toNat]
  rfl

theorem char_eq_iff_toNat {c d : Char} : c = d ↔ c.toNat = d.toNat := by
  constructor
  · intro h; rw [h]
  · intro h
    apply Char.eq_of_val_eq
    apply UInt32.toNat.inj
    exact h

theorem toNat_jsToLower (c : Char) :
    (jsToLower c).toNat = if 65 ≤ c.toNat ∧ c.toNat ≤ 90 then c.toNat + 32 else c.toNat := by
  simp only [jsToLower, Char.toLower]
  split
  · next h => exact char_toNat_ofNat_valid (Or.inl (by omega))
  · rfl

theorem isUpperAscii_jsToLower (c : Char) : isUpperAscii (jsToLower c) = false := by
  simp only [isUpperAscii, toNat_jsToLower]
  split <;> next h => simp; omega

theorem jsToLower_of_not_upper {c : Char} (h : isUpperAscii c = false) : jsToLower c = c := by
  simp only [isUpperAscii, Bool.and_eq_false_iff, decide_eq_false_iff_not] at h
  rw [char_eq_iff_toNat, toNat_jsToLower, if_neg (by omega)]

theorem keepChar_not_space {c : Char} (h : keepChar c = true) : jsIsSpace c = false := by
  simp only [keepChar, jsIsWord, Bool.or_eq_true, Bool.and_eq_true, decide_eq_true_eq] at h
  rcases h with h | h
  · simp only [jsIsSpace, Bool.or_eq_false_iff, Bool.and_eq_false_iff,
      decide_eq_false_iff_not]
    omega
  · subst h
    decide

theorem keepChar_hyphen : keepChar '-' = true := by decide

theorem isUpperAscii_hyphen : isUpperAscii '-' = false := by decide

theorem jsIsSpace_hyphen : jsIsSpace '-' = false := by decide

/-! ## List helper lemmas -/

theorem head?_dropWhile_false (p : Char → Bool) (l : List Char) {c : Char}
    (h : (l.dropWhile p).head? = some c) : p c = false := by
  induction l with
  | nil => simp at h
  | cons a t ih =>
    rw [List.dropWhile_cons] at h
    split at h
    · exact ih h
    · next hp => simp at h; subst h; simpa using hp

theorem dropWhile_eq_self_of_head (p : Char → Bool) (l : List Char)
    (h : ∀ c, l.head? = some c → p c = false) : l.dropWhile p = l := by
  cases l with
  | nil => rfl
  | cons a t => rw [List.dropWhile_cons, if_neg (by simp [h a rfl])]

theorem head?_of_append {l t : List Char} {c : Char} (h : l.head? = some c) :
    (l ++ t).head? = some c := by
  cases l with
  | nil => simp at h
  | cons a r => simpa using h

/-! ## Slugifier invariants -/

theorem mem_collapseWsAux {c : Char} :
    ∀ (l : List Char) (b : Bool),
      c ∈ collapseWsAux b l → c = '-' ∨ (c ∈ l ∧ jsIsSpace c = false) := by
  intro l
  induction l with
  | nil => intro b h; simp [collapseWsAux] at h
  | cons a t ih =>
    intro b h
    rcases Bool.eq_false_or_eq_true (jsIsSpace a) with hs | hs
    case inr =>
      rw [collapseWsAux, if_neg (by simp [hs])] at h
      rcases List.mem_cons.mp h with h | h
      · exact Or.inr ⟨by simp [h], by rw [h]; exact hs⟩
      · rcases ih false h with h' | h'
        · exact Or.inl h'
        · exact Or.inr ⟨List.mem_cons_of_mem a h'.1, h'.2⟩
    case inl =>
      cases b with
      | false =>
        rw [collapseWsAux, if_pos (by simp [hs]), if_neg (by simp)] at h
        rcases List.mem_cons.mp h with h | h
        · exact Or.inl h
        · rcases ih true h with h' | h'
          · exact Or.inl h'
          · exact Or.inr ⟨List.mem_cons_of_mem a h'.1, h'.2⟩
      | true =>
        rw [collapseWsAux, if_pos (by simp [hs]), if_pos (by simp)] at h
        rcases ih true h with h' | h'
        · exact Or.inl h'
        · exact Or.inr ⟨List.mem_cons_of_mem a h'.1, h'.2⟩

theorem collapseWsAux_no_space {c : Char} (l : List Char) (b : Bool)
    (h : c ∈ collapseWsAux b l) : jsIsSpace c = false := by
  rcases mem_collapseWsAux l b h with h' | h'
  · subst h'; exact jsIsSpace_hyphen
  · exact h'.2

theorem collapseWsAux_id :
    ∀ (l : List Char) (b : Bool), (∀ c ∈ l, jsIsSpace c = false) → collapseWsAux b l = l := by
  intro l
  induction l with
  | nil => intro b _; rfl
  | cons a t ih =>
    intro b h
    have ha : jsIsSpace a = false := h a (List.mem_cons_self a t)
    rw [collapseWsAux, if_neg (by simp [ha])]
    rw [ih false fun c hc => h c (List.mem_cons_of_mem a hc)]

theorem mem_collapseHyAux {c : Char} :
    ∀ (l : List Char) (b : Bool), c ∈ collapseHyAux b l → c = '-' ∨ c ∈ l := by
  intro l
  induction l with
  | nil => intro b h; simp [collapseHyAux] at h
  | cons a t ih =>
    intro b h
    by_cases hy : a = '-'
    case pos =>
      cases b with
      | false =>
        rw [collapseHyAux, if_pos hy, if_neg (by simp)] at h
        rcases List.mem_cons.mp h with h | h
        · exact Or.inl h
        · rcases ih true h with h' | h'
          · exact Or.inl h'
          · exact Or.inr (List.mem_cons_of_mem a h')
      | true =>
        rw [collapseHyAux, if_pos hy, if_pos (by simp)] at h
        rcases ih true h with h' | h'
        · exact Or.inl h'
        · exact Or.inr (List.mem_cons_of_mem a h')
    case neg =>
      rw [collapseHyAux, if_neg hy] at h
      rcases List.mem_cons.mp h with h | h
      · exact Or.inr (by simp [h])
      · rcases ih false h with h' | h'
        · exact Or.inl h'
        · exact Or.inr (List.mem_cons_of_mem a h')

/-- No two adjacent hyphens. -/
def noDH : List Char → Bool
  | [] => true
  | [_] => true
  | a :: b :: t => (!(a = '-' && b = '-')) && noDH (b :: t)

theorem noDH_cons_cons {a b : Char} {t : List Char} :
    noDH (a :: b :: t) = true ↔ ¬(a = '-' ∧ b = '-') ∧ noDH (b :: t) = true := by
  simp [noDH]
  tauto

theorem noDH_tail {c : Char} {l : List Char} (h : noDH (c :: l) = true) :
    noDH l = true := by
  cases l with
  | nil => rfl
  | cons b t => exact (noDH_cons_cons.mp h).2

theorem noDH_cons {c : Char} {l : List Char} (h : noDH l = true)
    (hh : ∀ d, l.head? = some d → ¬(c = '-' ∧ d = '-')) : noDH (c :: l) = true := by
  cases l with
  | nil => rfl
  | cons b t => exact noDH_cons_cons.mpr ⟨hh b rfl, h⟩

theorem head?_collapseHyAux_true :
    ∀ (l : List Char) {c : Char}, (collapseHyAux true l).head? = some c → c ≠ '-' := by
  intro l
  induction l with
  | nil => intro c h; simp [collapseHyAux] at h
  | cons a t ih =>
    intro c h
    by_cases hy : a = '-'
    · rw [collapseHyAux, if_pos hy, if_pos (by simp)] at h
      exact ih h
    · rw [collapseHyAux, if_neg hy] at h
      simp only [List.head?_cons, Option.some.injEq] at h
      rw [← h]
      exact hy

theorem noDH_collapseHyAux :
    ∀ (l : List Char) (b : Bool), noDH (collapseHyAux b l) = true := by
  intro l
  induction l with
  | nil => intro b; rfl
  | cons a t ih =>
    intro b
    by_cases hy : a = '-'
    · cases b with
      | true => rw [collapseHyAux, if_pos hy, if_pos (by simp)]; exact ih true
      | false =>
        rw [collapseHyAux, if_pos hy, if_neg (by simp)]
        exact noDH_cons (ih true) fun d hd hc => head?_collapseHyAux_true t hd hc.2
    · rw [collapseHyAux, if_neg hy]
      exact noDH_cons (ih false) fun d hd hc => hy hc.1

theorem noDH_append_left : ∀ {l t : List Char}, noDH (l ++ t) = true → noDH l = true := by
  intro l
  induction l with
  | nil => intro t _; rfl
  | cons a l' ih =>
    intro t h
    cases l' with
    | nil => rfl
    | cons b r =>
      rw [List.cons_append, List.cons_append] at h
      have h' := noDH_cons_cons.mp h
      exact noDH_cons_cons.mpr ⟨h'.1, ih (by simpa using h'.2)⟩

theorem noDH_append_right : ∀ {t l : List Char}, noDH (t ++ l) = true → noDH l = true := by
  intro t
  induction t with
  | nil => intro l h; simpa using h
  | cons a t' ih =>
    intro l h
    rw [List.cons_append] at h
    exact ih (noDH_tail h)

theorem collapseHyAux_id :
    ∀ (l : List Char), noDH l = true →
      collapseHyAux false l = l ∧
      ((∀ d, l.head? = some d → d ≠ '-') → collapseHyAux true l = l) := by
  intro l
  induction l with
  | nil => intro _; exact ⟨rfl, fun _ => rfl⟩
  | cons a t ih =>
    intro h
    have ht := noDH_tail h
    constructor
    · by_cases hy : a = '-'
      · rw [collapseHyAux, if_pos hy, if_neg (by simp)]
        have hhead : ∀ d, t.head? = some d → d ≠ '-' := by
          intro d hd hd'
          cases t with
          | nil => simp at hd
          | cons b r =>
            simp only [List.head?_cons, Option.some.injEq] at hd
            exact (noDH_cons_cons.mp h).1 ⟨hy, by rw [hd]; exact hd'⟩
        rw [(ih ht).2 hhead, hy]
      · rw [collapseHyAux, if_neg hy, (ih ht).1]
    · intro hh
      have hy : a ≠ '-' := hh a rfl
      rw [collapseHyAux, if_neg hy, (ih ht).1]

theorem mem_of_head? {c : Char} {l : List Char} (h : l.head? = some c) : c ∈ l := by
  cases l with
  | nil => simp at h
  | cons a t =>
    simp only [List.head?_cons, Option.some.injEq] at h
    simp [h]

theorem dropWhile_eq_self_of_all (p : Char → Bool) (l : List Char)
    (h : ∀ c ∈ l, p c = false) : l.dropWhile p = l :=
  dropWhile_eq_self_of_head p l fun c hc => h c (mem_of_head? hc)

theorem mem_jsTrim {c : Char} {l : List Char} (h : c ∈ jsTrim l) : c ∈ l := by
  simp only [jsTrim, trimRight, List.mem_reverse] at h
  have h1 : c ∈ (trimLeft l).reverse := (List.dropWhile_sublist jsIsSpace).mem h
  have h2 : c ∈ trimLeft l := List.mem_reverse.mp h1
  exact (List.dropWhile_sublist jsIsSpace).mem h2

theorem mem_dropLeadHy {c : Char} {l : List Char} (h : c ∈ dropLeadHy l) : c ∈ l :=
  (List.dropWhile_sublist _).mem h

theorem mem_dropTrailHy {c : Char} {l : List Char} (h : c ∈ dropTrailHy l) : c ∈ l := by
  simp only [dropTrailHy, List.mem_reverse] at h
  have h1 : c ∈ l.reverse := (List.dropWhile_sublist _).mem h
  exact List.mem_reverse.mp h1

/-- Decomposition of `dropTrailHy`: what is dropped is a suffix of `l`. -/
theorem dropTrailHy_append (l : List Char) :
    dropTrailHy l ++ (l.reverse.takeWhile fun c => c = '-').reverse = l := by
  have h := List.takeWhile_append_dropWhile (fun c => c = '-') l.reverse
  calc dropTrailHy l ++ (l.reverse.takeWhile fun c => c = '-').reverse
      = ((l.reverse.takeWhile fun c => c = '-') ++
          (l.reverse.dropWhile fun c => c = '-')).reverse := by
        rw [List.reverse_append]; rfl
    _ = l := by rw [h, List.reverse_reverse]

/-- Every character of a slug is a word character or a hyphen. -/
theorem slugifyL_keep {l : List Char} {c : Char} (h : c ∈ slugifyL l) :
    keepChar c = true := by
  have h3 : c ∈ collapseHy (stripNonWord (collapseWs (jsTrim (l.map jsToLower)))) :=
    mem_dropLeadHy (mem_dropTrailHy h)
  rcases mem_collapseHyAux _ false h3 with h' | h'
  · rw [h']; exact keepChar_hyphen
  · exact List.of_mem_filter h'

/-- No character of a slug is an ASCII uppercase letter. -/
theorem slugifyL_not_upper {l : List Char} {c : Char} (h : c ∈ slugifyL l) :
    isUpperAscii c = false := by
  have h3 : c ∈ collapseHy (stripNonWord (collapseWs (jsTrim (l.map jsToLower)))) :=
    mem_dropLeadHy (mem_dropTrailHy h)
  rcases mem_collapseHyAux _ false h3 with h' | h'
  · rw [h']; exact isUpperAscii_hyphen
  · have h2 : c ∈ collapseWs (jsTrim (l.map jsToLower)) := List.mem_of_mem_filter h'
    rcases mem_collapseWsAux _ false h2 with h'' | h''
    · rw [h'']; exact isUpperAscii_hyphen
    · have h0 : c ∈ l.map jsToLower := mem_jsTrim h''.1
      rcases List.mem_map.mp h0 with ⟨d, _, hd⟩
      rw [← hd]
      exact isUpperAscii_jsToLower d

/-- A slug contains no two adjacent hyphens. -/
theorem slugifyL_noDH (l : List Char) : noDH (slugifyL l) = true := by
  have h4 : noDH (collapseHy (stripNonWord (collapseWs (jsTrim (l.map jsToLower))))) = true :=
    noDH_collapseHyAux _ false
  have h5 : noDH (dropLeadHy (collapseHy (stripNonWord (collapseWs (jsTrim (l.map jsToLower)))))) = true := by
    have := List.takeWhile_append_dropWhile (fun c => c = '-')
      (collapseHy (stripNonWord (collapseWs (jsTrim (l.map jsToLower)))))
    rw [← this] at h4
    exact noDH_append_right h4
  rw [slugifyL]
  rw [← dropTrailHy_append (dropLeadHy (collapseHy (stripNonWord (collapseWs (jsTrim (l.map jsToLower))))))] at h5
  exact noDH_append_left h5

/-- A slug does not start with a hyphen. -/
theorem slugifyL_head {l : List Char} {c : Char} (h : (slugifyL l).head? = some c) :
    c ≠ '-' := by
  have happ := dropTrailHy_append (dropLeadHy (collapseHy (stripNonWord (collapseWs (jsTrim (l.map jsToLower))))))
  have h5 : (dropLeadHy (collapseHy (stripNonWord (collapseWs (jsTrim (l.map jsToLower)))))).head? = some c := by
    rw [← happ]
    exact head?_of_append h
  have := head?_dropWhile_false (fun c => c = '-') _ h5
  simpa using this

/-- A slug does not end with a hyphen. -/
theorem slugifyL_last {l : List Char} {c : Char} (h : (slugifyL l).getLast? = some c) :
    c ≠ '-' := by
  rw [slugifyL, dropTrailHy, ← List.head?_reverse, List.reverse_reverse] at h
  have := head?_dropWhile_false (fun c => c = '-') _ h
  simpa using this

/-- The slugifier is idempotent. -/
theorem slugifyL_idem (l : List Char) : slugifyL (slugifyL l) = slugifyL l := by
  have hkeep : ∀ c ∈ slugifyL l, keepChar c = true := fun c hc => slugifyL_keep hc
  have hnospace : ∀ c ∈ slugifyL l, jsIsSpace c = false := fun c hc =>
    keepChar_not_space (hkeep c hc)
  have h1 : (slugifyL l).map jsToLower = slugifyL l := by
    rw [List.map_congr_left fun c hc => jsToLower_of_not_upper (slugifyL_not_upper hc)]
    exact List.map_id _
  have h2 : jsTrim (slugifyL l) = slugifyL l := by
    rw [jsTrim, trimLeft, dropWhile_eq_self_of_all _ _ hnospace]
    rw [trimRight, dropWhile_eq_self_of_all _ _ fun c hc =>
      hnospace c (List.mem_reverse.mp hc), List.reverse_reverse]
  have h3 : collapseWs (slugifyL l) = slugifyL l := collapseWsAux_id _ false hnospace
  have h4 : stripNonWord (slugifyL l) = slugifyL l := List.filter_eq_self.mpr hkeep
  have h5 : collapseHy (slugifyL l) = slugifyL l :=
    (collapseHyAux_id _ (slugifyL_noDH l)).1
  have h6 : dropLeadHy (slugifyL l) = slugifyL l := by
    rw [dropLeadHy]
    exact dropWhile_eq_self_of_head _ _ fun c hc => by
      simpa using slugifyL_head hc
  have h7 : dropTrailHy (slugifyL l) = slugifyL l := by
    rw [dropTrailHy, dropWhile_eq_self_of_head _ _ fun c hc => ?_, List.reverse_reverse]
    rw [List.head?_reverse] at hc
    simpa using slugifyL_last hc
  calc slugifyL (slugifyL l)
      = dropTrailHy (dropLeadHy (collapseHy (stripNonWord (collapseWs (jsTrim (slugifyL l)))))) := by
        rw [slugifyL, h1]
    _ = slugifyL l := by rw [h2, h3, h4, h5, h6, h7]

/-- The spec's example title `Men's Blue T-Shirt!` (the apostrophe, code
point 39, is written numerically to keep the file ASCII-clean). -/
def exampleTitle : String :=
  String.mk ['M', 'e', 'n', Char.ofNat 39, 's', ' ',
             'B', 'l', 'u', 'e', ' ', 'T', '-', 'S', 'h', 'i', 'r', 't', '!']

/-- C8: `slugify("Men's Blue T-Shirt!")` evaluates to `"mens-blue-t-shirt"`,
and for every input string the slug's characters are word characters or
hyphens, never ASCII uppercase and never whitespace, and the slug neither
starts nor ends with a hyphen. -/
theorem slugify_spec :
    slugify exampleTitle = "mens-blue-t-shirt" ∧
    ∀ s : String,
      (∀ c ∈ (slugify s).data, keepChar c = true ∧ isUpperAscii c = false ∧
        jsIsSpace c = false) ∧
      (∀ c, (slugify s).data.head? = some c → c ≠ '-') ∧
      (∀ c, (slugify s).data.getLast? = some c → c ≠ '-') := by
  refine ⟨by decide, fun s => ⟨fun c hc => ?_, fun c hc => ?_, fun c hc => ?_⟩⟩
  · exact ⟨slugifyL_keep hc, slugifyL_not_upper hc,
      keepChar_not_space (slugifyL_keep hc)⟩
  · exact slugifyL_head hc
  · exact slugifyL_last hc

theorem slugify_spec_witness :
    (slugify "mens").data.head? = some 'm' ∧ ('m' : Char) ≠ '-' :=
  ⟨by decide, (slugify_spec.2 "mens").2.1 'm' (by decide)⟩

/-- C10: the slug generator is idempotent. -/
theorem slugify_idempotent (s : String) : slugify (slugify s) = slugify s := by
  show String.mk (slugifyL (slugifyL s.data)) = String.mk (slugifyL s.data)
  rw [slugifyL_idem]

/-! ## CSV field escaping (C4) -/

theorem mem_doubleQuotes {c : Char} : ∀ {l : List Char}, c ∈ doubleQuotes l ↔ c ∈ l := by
  intro l
  induction l with
  | nil => simp [doubleQuotes]
  | cons a t ih =>
    by_cases hq : a = dquote
    · rw [doubleQuotes, if_pos hq, hq]
      simp only [List.mem_cons, ih]
      tauto
    · rw [doubleQuotes, if_neg hq]
      simp only [List.mem_cons, ih]

theorem doubleQuotes_of_no_quote : ∀ {l : List Char}, (dquote ∈ l → False) →
    doubleQuotes l = l := by
  intro l
  induction l with
  | nil => intro _; rfl
  | cons a t ih =>
    intro h
    have ha : a ≠ dquote := fun hq => h (by simp [hq])
    rw [doubleQuotes, if_neg ha, ih fun hq => h (List.mem_cons_of_mem a hq)]

theorem needsQuoting_doubleQuotes : ∀ (l : List Char),
    needsQuoting (doubleQuotes l) = needsQuoting l := by
  intro l
  induction l with
  | nil => rfl
  | cons a t ih =>
    by_cases hq : a = dquote
    · rw [doubleQuotes, if_pos hq, hq]
      simp [needsQuoting, List.any_cons, ih]
    · rw [doubleQuotes, if_neg hq]
      simp only [needsQuoting, List.any_cons] at ih ⊢
      rw [ih]

theorem halveQuotes_qq (rest : List Char) :
    halveQuotes (dquote :: dquote :: rest) = dquote :: halveQuotes rest := by
  rw [halveQuotes.eq_def]
  simp

theorem halveQuotes_char {c : Char} (hc : c ≠ dquote) (rest : List Char) :
    halveQuotes (c :: rest) = c :: halveQuotes rest := by
  rw [halveQuotes.eq_def]
  simp [hc]

theorem halveQuotes_doubleQuotes : ∀ (l : List Char),
    halveQuotes (doubleQuotes l) = l := by
  intro l
  induction l with
  | nil => rfl
  | cons a t ih =>
    by_cases hq : a = dquote
    · rw [doubleQuotes, if_pos hq, hq, halveQuotes_qq, ih]
    · rw [doubleQuotes, if_neg hq, halveQuotes_char hq, ih]

/-- C4: a field containing a comma, double-quote, LF or CR (the characters of
the source regex) is emitted wrapped in double quotes with its internal
double-quotes doubled; every other field is emitted unchanged; and a standard
CSV field unescaper recovers the original string exactly. -/
theorem escapeCsvField_spec (l : List Char) :
    (needsQuoting l = true →
      escapeCsvFieldL l = dquote :: (doubleQuotes l ++ [dquote])) ∧
    (needsQuoting l = false → escapeCsvFieldL l = l) ∧
    csvUnescape (escapeCsvFieldL l) = l := by
  have hnq := needsQuoting_doubleQuotes l
  refine ⟨?_, ?_, ?_⟩
  · intro h
    rw [escapeCsvFieldL]
    simp only [hnq, h, if_true]
  · intro h
    have hno : dquote ∈ l → False := by
      intro hq
      have : needsQuoting l = true := by
        simp only [needsQuoting, List.any_eq_true]
        exact ⟨dquote, hq, by simp⟩
      rw [this] at h; cases h
    rw [escapeCsvFieldL]
    simp only [hnq, h, Bool.false_eq_true, if_false]
    exact doubleQuotes_of_no_quote hno
  · by_cases h : needsQuoting l = true
    · rw [escapeCsvFieldL]
      simp only [hnq, h, if_true]
      rw [csvUnescape]
      rw [if_pos ⟨rfl, by simp, by rw [List.getLast?_concat]⟩]
      rw [List.dropLast_concat, halveQuotes_doubleQuotes]
    · have h' : needsQuoting l = false := by simpa using h
      have hno : dquote ∈ l → False := by
        intro hq
        have : needsQuoting l = true := by
          simp only [needsQuoting, List.any_eq_true]
          exact ⟨dquote, hq, by simp⟩
        rw [this] at h'; cases h'
      rw [escapeCsvFieldL]
      simp only [hnq, h', Bool.false_eq_true, if_false]
      rw [doubleQuotes_of_no_quote hno]
      cases l with
      | nil => rfl
      | cons a t =>
        rw [csvUnescape, if_neg]
        intro hc
        exact hno (by simp [hc.1])

theorem escapeCsvField_spec_witness :
    needsQuoting "a,b".data = true ∧
    escapeCsvFieldL "a,b".data = dquote :: (doubleQuotes "a,b".data ++ [dquote]) ∧
    needsQuoting "ab".data = false ∧ escapeCsvFieldL "ab".data = "ab".data :=
  ⟨by decide, (escapeCsvField_spec "a,b".data).1 (by decide),
   by decide, (escapeCsvField_spec "ab".data).2.1 (by decide)⟩

/-! ## Inversion of the CSV record splitter on encoder output (C3, C9) -/

theorem splitRecordAux_qq (acc rest : List Char) :
    splitRecordAux true acc (dquote :: dquote :: rest) =
      splitRecordAux true (dquote :: acc) rest := by
  rw [splitRecordAux.eq_def]
  simp

theorem splitRecordAux_close (acc : List Char) {rest : List Char}
    (h : rest.head? ≠ some dquote) :
    splitRecordAux true acc (dquote :: rest) = splitRecordAux false acc rest := by
  cases rest with
  | nil =>
    rw [splitRecordAux.eq_def]
    simp
  | cons d r =>
    have hd : d ≠ dquote := fun hq => h (by simp [hq])
    rw [splitRecordAux.eq_def]
    simp [hd]

theorem splitRecordAux_inq_char {c : Char} (hc : c ≠ dquote) (acc rest : List Char) :
    splitRecordAux true acc (c :: rest) = splitRecordAux true (c :: acc) rest := by
  rw [splitRecordAux.eq_def]
  simp [hc]

theorem dquote_ne_comma : dquote ≠ ',' := by decide

theorem splitRecordAux_comma (acc rest : List Char) :
    splitRecordAux false acc (',' :: rest) =
      acc.reverse :: splitRecordAux false [] rest := by
  rw [splitRecordAux.eq_def]
  simp [dquote_ne_comma]

theorem splitRecordAux_open (acc rest : List Char) :
    splitRecordAux false acc (dquote :: rest) = splitRecordAux true acc rest := by
  rw [splitRecordAux.eq_def]
  simp [dquote_ne_comma]

theorem splitRecordAux_plain {c : Char} (hc1 : c ≠ ',') (hc2 : c ≠ dquote)
    (acc rest : List Char) :
    splitRecordAux false acc (c :: rest) = splitRecordAux false (c :: acc) rest := by
  rw [splitRecordAux.eq_def]
  simp [hc1, hc2]

/-- Consuming a doubled-quotes body followed by the closing quote. -/
theorem splitRecordAux_consume_quoted :
    ∀ (f acc : List Char) {rest : List Char}, rest.head? ≠ some dquote →
      splitRecordAux true acc (doubleQuotes f ++ (dquote :: rest)) =
        splitRecordAux false (f.reverse ++ acc) rest := by
  intro f
  induction f with
  | nil =>
    intro acc rest h
    simpa using splitRecordAux_close acc h
  | cons c f' ih =>
    intro acc rest h
    by_cases hq : c = dquote
    · rw [doubleQuotes, if_pos hq, hq]
      rw [List.cons_append, List.cons_append, splitRecordAux_qq, ih _ h]
      simp
    · rw [doubleQuotes, if_neg hq, List.cons_append, splitRecordAux_inq_char hq, ih _ h]
      simp

/-- Consuming an unquoted field. -/
theorem splitRecordAux_consume_plain :
    ∀ (f acc rest : List Char), (∀ c ∈ f, c ≠ ',' ∧ c ≠ dquote) →
      splitRecordAux false acc (f ++ rest) =
        splitRecordAux false (f.reverse ++ acc) rest := by
  intro f
  induction f with
  | nil => intro acc rest _; simp
  | cons c f' ih =>
    intro acc rest h
    have hc := h c (List.mem_cons_self c f')
    rw [List.cons_append, splitRecordAux_plain hc.1 hc.2,
      ih _ _ fun d hd => h d (List.mem_cons_of_mem c hd)]
    simp

theorem no_special_of_not_needsQuoting {f : List Char} (h : needsQuoting f = false) :
    ∀ c ∈ f, c ≠ ',' ∧ c ≠ dquote := by
  intro c hc
  simp only [needsQuoting, List.any_eq_false] at h
  have := h c hc
  constructor
  · intro he; rw [he] at this; simp at this
  · intro he; rw [he] at this; simp at this

theorem splitRecordAux_nil (inQ : Bool) (acc : List Char) :
    splitRecordAux inQ acc [] = [acc.reverse] := by
  rw [splitRecordAux.eq_def]

theorem joinSep_single (sep x : List Char) : joinSep sep [x] = x := by
  rw [joinSep.eq_def]

theorem joinSep_cons_cons (sep x y : List Char) (t : List (List Char)) :
    joinSep sep (x :: y :: t) = x ++ sep ++ joinSep sep (y :: t) := by
  rw [joinSep.eq_def]

theorem no_quote_of_not_needsQuoting {f : List Char}
    (h : needsQuoting (doubleQuotes f) = false) : dquote ∈ f → False := by
  intro hq
  have : needsQuoting (doubleQuotes f) = true := by
    simp only [needsQuoting, List.any_eq_true]
    exact ⟨dquote, mem_doubleQuotes.mpr hq, by simp⟩
  rw [this] at h
  cases h

/-- Parsing a single escaped field at the end of a record. -/
theorem splitRecordAux_last_field (f : List Char) :
    splitRecordAux false [] (escapeCsvFieldL f) = [f] := by
  by_cases h : needsQuoting (doubleQuotes f) = true
  · rw [escapeCsvFieldL]
    simp only [h, if_true]
    rw [splitRecordAux_open]
    have hq := @splitRecordAux_consume_quoted f [] [] (by simp)
    simpa [splitRecordAux_nil] using hq
  · have h' : needsQuoting (doubleQuotes f) = false := by simpa using h
    rw [escapeCsvFieldL]
    simp only [h', Bool.false_eq_true, if_false]
    rw [doubleQuotes_of_no_quote (no_quote_of_not_needsQuoting h')]
    have hspec : ∀ c ∈ f, c ≠ ',' ∧ c ≠ dquote := by
      rw [needsQuoting_doubleQuotes] at h'
      exact no_special_of_not_needsQuoting h'
    have := splitRecordAux_consume_plain f [] [] hspec
    simpa [splitRecordAux_nil] using this

/-- Parsing one escaped field followed by a comma and the rest of the
record. -/
theorem splitRecordAux_field_comma (f rest : List Char) :
    splitRecordAux false [] (escapeCsvFieldL f ++ ',' :: rest) =
      f :: splitRecordAux false [] rest := by
  by_cases h : needsQuoting (doubleQuotes f) = true
  · rw [escapeCsvFieldL]
    simp only [h, if_true]
    rw [List.cons_append, List.append_assoc]
    rw [splitRecordAux_open]
    rw [show [dquote] ++ ',' :: rest = dquote :: ',' :: rest from rfl]
    rw [splitRecordAux_consume_quoted f [] (by simp; decide)]
    rw [splitRecordAux_comma]
    simp
  · have h' : needsQuoting (doubleQuotes f) = false := by simpa using h
    rw [escapeCsvFieldL]
    simp only [h', Bool.false_eq_true, if_false]
    rw [doubleQuotes_of_no_quote (no_quote_of_not_needsQuoting h')]
    have hspec : ∀ c ∈ f, c ≠ ',' ∧ c ≠ dquote := by
      rw [needsQuoting_doubleQuotes] at h'
      exact no_special_of_not_needsQuoting h'
    rw [splitRecordAux_consume_plain f [] _ hspec, splitRecordAux_comma]
    simp

/-- Splitting the comma-join of escaped fields recovers the fields. -/
theorem splitRecord_joinSep :
    ∀ (fs : List (List Char)), fs ≠ [] →
      splitRecord (joinSep [','] (fs.map escapeCsvFieldL)) = fs := by
  intro fs
  induction fs with
  | nil => intro h; cases h rfl
  | cons f t ih =>
    intro _
    cases t with
    | nil =>
      rw [List.map_cons, List.map_nil, joinSep_single, splitRecord]
      exact splitRecordAux_last_field f
    | cons g t' =>
      rw [List.map_cons, List.map_cons, joinSep_cons_cons, List.append_assoc,
        List.singleton_append, splitRecord, splitRecordAux_field_comma]
      have hrec := ih (by simp)
      rw [splitRecord, List.map_cons] at hrec
      rw [hrec]

/-- Splitting a product row yields exactly its 26 raw column values. -/
theorem splitRecord_toShopifyRow (p : Product) (i : Nat) :
    splitRecord (toShopifyRowL p i) = shopifyRowValues p i := by
  rw [toShopifyRowL]
  exact splitRecord_joinSep _ (by simp [shopifyRowValues])

theorem string_eq_empty_of_data {s : String} (h : s.data = []) : s = "" := by
  obtain ⟨d⟩ := s
  simp at h
  subst h
  rfl

theorem rowsFrom_length : ∀ (i : Nat) (ps : List Product),
    (rowsFrom i ps).length = ps.length := by
  intro i ps
  induction ps generalizing i with
  | nil => rfl
  | cons p t ih => simp [rowsFrom, ih]

theorem mem_rowsFrom {r : List Char} :
    ∀ {i : Nat} {ps : List Product}, r ∈ rowsFrom i ps →
      ∃ p j, r = toShopifyRowL p j := by
  intro i ps
  induction ps generalizing i with
  | nil => intro h; simp [rowsFrom] at h
  | cons p t ih =>
    intro h
    rcases List.mem_cons.mp h with h | h
    · exact ⟨p, i, h⟩
    · exact ih h

theorem length_shopifyRowValues (p : Product) (i : Nat) :
    (shopifyRowValues p i).length = 26 := rfl

/-- C3: the encoded CSV document is the byte-order mark followed by the
CRLF-join of its records; the record list counts one header plus one record
per product, starts with the fixed 26-column Shopify header, and every
record splits into exactly 26 fields under a standard (quote-aware) CSV
reader. -/
theorem generateCsv_spec (products : List Product) :
    generateCsvL products = bomChar :: joinSep ['\r', '\n'] (csvRecords products) ∧
    (csvRecords products).length = 1 + products.length ∧
    (csvRecords products).head? = some SHOPIFY_CSV_HEADER_L ∧
    ∀ r ∈ csvRecords products, (splitRecord r).length = 26 := by
  refine ⟨rfl, ?_, rfl, ?_⟩
  · rw [csvRecords, List.length_cons, rowsFrom_length]
    omega
  · intro r hr
    rcases List.mem_cons.mp hr with h | h
    · rw [h]
      decide
    · rcases mem_rowsFrom h with ⟨p, j, rfl⟩
      rw [splitRecord_toShopifyRow]
      exact length_shopifyRowValues p j

theorem generateCsv_spec_witness :
    SHOPIFY_CSV_HEADER_L ∈ csvRecords [] ∧
    (splitRecord SHOPIFY_CSV_HEADER_L).length = 26 :=
  ⟨List.mem_cons_self _ _,
   (generateCsv_spec []).2.2.2 SHOPIFY_CSV_HEADER_L (List.mem_cons_self _ _)⟩

/-- C9: the Handle column of an emitted row is never empty: it is the
record's `handle` when that is non-empty and the positional fallback
`product-<index+1>` otherwise. -/
theorem toShopifyRow_handle_nonempty (p : Product) (i : Nat) :
    (splitRecord (toShopifyRowL p i)).head? =
      some (if p.handle = "" then ("product-" ++ Nat.repr (i + 1)).data
            else p.handle.data) ∧
    (if p.handle = "" then ("product-" ++ Nat.repr (i + 1)).data
     else p.handle.data) ≠ [] := by
  constructor
  · rw [splitRecord_toShopifyRow]
    simp only [shopifyRowValues, jsOr, List.head?_cons, Option.some.injEq]
    split <;> rfl
  · split
    · next h =>
      rw [String.data_append]
      simp
    · next h =>
      intro hd
      exact h (string_eq_empty_of_data hd)

/-! ## Classification-record defaults (C7) -/

/-- C7: in the record built from a parsed model reply, a missing `vendor`,
`type`, `tags` or body defaults to the empty string, a missing `price`
defaults to `"0.00"`, a missing `title` defaults to `"Untitled Product"`,
and the handle is the slugified title, or `product-<filename>` when the
slug is empty. -/
theorem productFromParsed_spec (parsed : ParsedReply) (filename : String) :
    (parsed.vendor = none → (productFromParsed parsed filename).vendor = "") ∧
    (parsed.type = none → (productFromParsed parsed filename).type = "") ∧
    (parsed.tags = none → (productFromParsed parsed filename).tags = "") ∧
    (parsed.body_html = none → parsed.bodyHtml = none →
      (productFromParsed parsed filename).bodyHtml = "") ∧
    (parsed.price = none → (productFromParsed parsed filename).price = "0.00") ∧
    (parsed.title = none → (productFromParsed parsed filename).title = "Untitled Product") ∧
    ((productFromParsed parsed filename).handle =
      if slugify (productFromParsed parsed filename).title = ""
      then "product-" ++ filename
      else slugify (productFromParsed parsed filename).title) := by
  refine ⟨?_, ?_, ?_, ?_, ?_, ?_, ?_⟩
  · intro h; simp [productFromParsed, jsOrOpt, h]
  · intro h; simp [productFromParsed, jsOrOpt, h]
  · intro h; simp [productFromParsed, jsOrOpt, h]
  · intro h h'; simp [productFromParsed, jsOrOpt, h, h']
  · intro h; simp [productFromParsed, jsOrOpt, h]
  · intro h; simp [productFromParsed, jsOrOpt, h]
  · simp only [productFromParsed]
    rw [jsOr]

/-- A model reply in which every expected key is missing. -/
def emptyReply : ParsedReply :=
  { title := none, body_html := none, bodyHtml := none, vendor := none,
    type := none, tags := none, price := none }

theorem productFromParsed_spec_witness :
    (productFromParsed emptyReply "img.jpg").vendor = "" ∧
    (productFromParsed emptyReply "img.jpg").price = "0.00" ∧
    (productFromParsed emptyReply "img.jpg").title = "Untitled Product" :=
  ⟨(productFromParsed_spec emptyReply "img.jpg").1 rfl,
   (productFromParsed_spec emptyReply "img.jpg").2.2.2.2.1 rfl,
   (productFromParsed_spec emptyReply "img.jpg").2.2.2.2.2.1 rfl⟩

/-! ## Response assembly (C2) -/

/-- C2: the request outcome is decided exactly by whether any product
survived: an empty product list yields a 400 carrying the full error list
and no CSV; a non-empty one yields a 200 whose body is the CSV of the
partial product list, with no error details — the success response does not
depend on the accumulated errors at all. -/
theorem respond_spec (products : List Product) (errors : List ProcessingError) :
    (products = [] →
      respond products errors =
        { status := 400, csvBody := none,
          error := some "No products could be generated.",
          details := some errors }) ∧
    (products ≠ [] →
      respond products errors =
        { status := 200, csvBody := some (generateCsv products),
          error := none, details := none } ∧
      ∀ errors2, respond products errors2 = respond products errors) := by
  constructor
  · intro h
    rw [respond, if_pos (by simp [h])]
  · intro h
    have hlen : products.length ≠ 0 := by simpa using h
    constructor
    · rw [respond, if_neg hlen]
    · intro errors2
      rw [respond, if_neg hlen, respond, if_neg hlen]

/-- A sample error entry. -/
def sampleError : ProcessingError := { file := "a.jpg", message := "boom" }

/-- A sample product record. -/
def sampleProduct : Product :=
  { handle := "blue-shirt", title := "Blue Shirt", bodyHtml := "<p>x</p>",
    vendor := "", type := "Apparel", tags := "blue", price := "19.99",
    sku := "", barcode := "", imageSrc := "", imageAlt := "Blue Shirt" }

theorem respond_spec_witness :
    respond [] [sampleError] =
      { status := 400, csvBody := none,
        error := some "No products could be generated.",
        details := some [sampleError] } ∧
    respond [sampleProduct] [sampleError] =
      { status := 200, csvBody := some (generateCsv [sampleProduct]),
        error := none, details := none } :=
  ⟨(respond_spec [] [sampleError]).1 rfl,
   ((respond_spec [sampleProduct] [sampleError]).2 (by simp)).1⟩

/-! ## Batch orchestration proofs (C1, C5, C6) -/

theorem processFilesAux_eq (classify : Classify) (upload : Upload) :
    ∀ (files : List UploadedFile) (i : Nat),
      processFilesAux classify upload i files =
        (((List.enumFrom i files).filterMap fun x =>
            (processOne classify upload x.2 x.1).1,
          (List.enumFrom i files).flatMap fun x =>
            (processOne classify upload x.2 x.1).2),
         files) := by
  intro files
  induction files with
  | nil => intro i; rfl
  | cons f rest ih =>
    intro i
    simp only [processFilesAux, ih (i + 1), List.enumFrom, List.flatMap_cons,
      List.filterMap_cons]
    cases hone : (processOne classify upload f i).1 with
    | none => simp [hone]
    | some p => simp [hone]

/-- C1: per-image failures are isolated.  The sequential loop's product and
error lists decompose per image (so no image's failure aborts any other);
an image whose classification fails contributes exactly one error and no
product; an image whose classification succeeds but whose upload fails
contributes exactly one error and its product unchanged, whose `imageSrc`
is empty whenever the classifier always returns an empty `imageSrc` (as
`getProductFromImage` does). -/
theorem processFiles_isolation (classify : Classify) (upload : Upload)
    (files : List UploadedFile)
    (hc : ∀ f p, classify f = .ok p → p.imageSrc = "") :
    (processFiles classify upload files).1.1 =
      (files.enum.filterMap fun x => (processOne classify upload x.2 x.1).1) ∧
    (processFiles classify upload files).1.2 =
      (files.enum.flatMap fun x => (processOne classify upload x.2 x.1).2) ∧
    (∀ f i e, classify f = .error e →
      processOne classify upload f i =
        (none, [{ file := f.originalname, message := e }])) ∧
    (∀ f i p e, classify f = .ok p → upload f i = .error e →
      processOne classify upload f i =
        (some p, [{ file := f.originalname,
                    message := "Image upload failed: " ++ e }]) ∧
      p.imageSrc = "") := by
  refine ⟨?_, ?_, ?_, ?_⟩
  · rw [processFiles, processFilesAux_eq classify upload files 0]
    rfl
  · rw [processFiles, processFilesAux_eq classify upload files 0]
    rfl
  · intro f i e h
    simp only [processOne, h]
  · intro f i p e hcl hup
    refine ⟨?_, hc f p hcl⟩
    simp only [processOne, hcl, hup]

/-- C5 (amended): a file whose MIME type is outside the allow-list never
reaches classification, but the two variants exclude it differently: the
Express/multer pipeline rejects the whole request at the multipart-parse
boundary (a request-level rejection, not a per-image error), while the
serverless formidable pipeline silently drops the file during parsing, so
the request proceeds exactly as if only the allow-listed files had been
uploaded — and the dropped file is never classified. -/
theorem mime_allowlist_spec (classify : Classify) (upload : Upload)
    (files : List UploadedFile) (f : UploadedFile) (hf : f ∈ files)
    (hm : allowedMime f.mimetype = false) :
    ((handleGenerate classify upload files).outcome =
        .rejected "Only images (JPEG, PNG, GIF, WebP) are allowed." ∧
      (handleGenerate classify upload files).classified = []) ∧
    (handleGenerateServerless classify upload files =
        handleGenerateServerless classify upload
          (files.filter fun g => allowedMime g.mimetype) ∧
      f ∉ (handleGenerateServerless classify upload files).classified) := by
  have hall : (files.all fun g => allowedMime g.mimetype) = false :=
    List.all_eq_false.mpr ⟨f, hf, by simp [hm]⟩
  refine ⟨?_, ?_, ?_⟩
  · rw [handleGenerate, if_neg (by simp [hall])]
    exact ⟨rfl, rfl⟩
  · have hff : ((files.filter fun g => allowedMime g.mimetype).filter
        fun g => allowedMime g.mimetype) =
        files.filter fun g => allowedMime g.mimetype :=
      List.filter_eq_self.mpr fun a ha => (List.mem_filter.mp ha).2
    simp only [handleGenerateServerless, hff]
  · intro hmem
    simp only [handleGenerateServerless] at hmem
    by_cases hlen : (files.filter fun g => allowedMime g.mimetype).length = 0
    · rw [if_pos hlen] at hmem
      simp at hmem
    · rw [if_neg hlen] at hmem
      rw [processFiles, processFilesAux_eq] at hmem
      simp [List.mem_filter, hm] at hmem

theorem processChunked_eq (classify : Classify) (upload : Upload)
    (items : List Item) :
    processChunked classify upload items =
      items.filterMap fun it => (processOne classify upload it.file it.index).1 := by
  have H : ∀ (m : Nat) (l : List Item), l.length ≤ m →
      processChunked classify upload l =
        l.filterMap fun it => (processOne classify upload it.file it.index).1 := by
    intro m
    induction m with
    | zero =>
      intro l h
      have : l = [] := List.length_eq_zero.mp (Nat.le_zero.mp h)
      rw [this]
      simp [processChunked, chunksOf]
    | succ m ih =>
      intro l h
      cases l with
      | nil => simp [processChunked, chunksOf]
      | cons a as =>
        rw [processChunked, chunksOf, List.flatMap_cons]
        have h1 : (((a :: as.take (CONCURRENCY - 1)).map fun it =>
              (processOne classify upload it.file it.index).1).filterMap id) =
            (a :: as.take (CONCURRENCY - 1)).filterMap fun it =>
              (processOne classify upload it.file it.index).1 := by
          rw [List.filterMap_map]
          rfl
        have h2 := ih (as.drop (CONCURRENCY - 1)) (by
          simp only [List.length_drop]
          simp only [List.length_cons] at h
          omega)
        rw [processChunked] at h2
        rw [h1, h2, ← List.filterMap_append, List.cons_append,
          List.take_append_drop]
  exact H items.length items (Nat.le_refl _)

/-- C6: the output product list preserves the input order restricted to the
successfully classified images, with no placeholders for failures — both in
the sequential loop of `src/server.js` and in the concurrency-4 chunked
variant of `src/api/generate.js`: each equals the order-preserving
`filterMap` of the per-image outcomes over the inputs in input order. -/
theorem product_order_preserved (classify : Classify) (upload : Upload) :
    (∀ files : List UploadedFile,
      (processFiles classify upload files).1.1 =
        files.enum.filterMap fun x => (processOne classify upload x.2 x.1).1) ∧
    (∀ items : List Item,
      processChunked classify upload items =
        items.filterMap fun it => (processOne classify upload it.file it.index).1) := by
  constructor
  · intro files
    rw [processFiles, processFilesAux_eq classify upload files 0]
    rfl
  · intro items
    exact processChunked_eq classify upload items

/-- A demonstration file. -/
def demoFile (name mime : String) : UploadedFile :=
  { content := [], mimetype := mime, originalname := name }

/-- A demonstration classifier: fails on `bad.png`, otherwise returns the
default record. -/
def demoClassify : Classify := fun f =>
  if f.originalname = "bad.png" then .error "No response from OpenRouter"
  else .ok (productFromParsed emptyReply f.originalname)

/-- A demonstration uploader: fails on `upfail.png`, otherwise reports no
public URL. -/
def demoUpload : Upload := fun f _ =>
  if f.originalname = "upfail.png" then .error "Supabase upload failed: boom"
  else .ok ""

/-- A demonstration batch with one classification failure and one upload
failure. -/
def demoFiles : List UploadedFile :=
  [demoFile "a.png" "image/png", demoFile "bad.png" "image/png",
   demoFile "upfail.png" "image/png"]

theorem demoClassify_imageSrc : ∀ f p, demoClassify f = .ok p → p.imageSrc = "" := by
  intro f p h
  rw [demoClassify] at h
  split at h
  · cases h
  · cases h
    rfl

theorem processFiles_isolation_witness :
    (processFiles demoClassify demoUpload demoFiles).1.1 =
      (demoFiles.enum.filterMap fun x =>
        (processOne demoClassify demoUpload x.2 x.1).1) :=
  (processFiles_isolation demoClassify demoUpload demoFiles demoClassify_imageSrc).1

/-- A file of a type outside the allow-list. -/
def badFile : UploadedFile := demoFile "doc.pdf" "application/pdf"

theorem mime_allowlist_spec_witness :
    allowedMime badFile.mimetype = false ∧
    (handleGenerate demoClassify demoUpload [badFile]).outcome =
      .rejected "Only images (JPEG, PNG, GIF, WebP) are allowed." ∧
    badFile ∉ (handleGenerateServerless demoClassify demoUpload [badFile]).classified :=
  ⟨by decide,
   ((mime_allowlist_spec demoClassify demoUpload [badFile] badFile
      (List.mem_singleton.mpr rfl) (by decide)).1).1,
   ((mime_allowlist_spec demoClassify demoUpload [badFile] badFile
      (List.mem_singleton.mpr rfl) (by decide)).2).2⟩

/-- A batch with one allow-listed image and one PDF. -/
def demoMixedFiles : List UploadedFile := [demoFile "a.png" "image/png", badFile]

/-- C5 counterexample: the claim's universal "request-level rejection" fails
on the serverless variant of `src/api/generate.js`: with one valid image and
one `application/pdf` upload, the disallowed file is silently dropped at the
multipart parse, the request is not rejected, and the handler answers 200
with a CSV (the dropped file is also never classified). -/
theorem serverless_mime_not_request_rejected :
    allowedMime badFile.mimetype = false ∧
    badFile ∈ demoMixedFiles ∧
    outcomeStatus (handleGenerateServerless demoClassify demoUpload demoMixedFiles) =
      some 200 ∧
    (handleGenerateServerless demoClassify demoUpload demoMixedFiles).classified =
      [demoFile "a.png" "image/png"] := by
  refine ⟨by decide, by decide, by decide, by decide⟩

end ShopifyGen
